import Mathlib

/-!
Shallow embedding of the service invocation layer of the bravia repository
(`src/service-protocol.js`): the transport `request` function (device error
classification, power-off masking, benign illegal-state masking, header
construction) and the `ServiceProtocol` class (`describe` discovery and
catalog, `invoke` method/version resolution and dispatch).

JavaScript values are modelled by the inductive type `J` (undefined, null,
booleans, numbers as integers, strings, arrays, objects as ordered field
lists).  Property access, assignment, deletion, truthiness, strict equality
and `for ... of` iteration are modelled by the `j*` operations below,
following JavaScript semantics on the shapes that actually occur.
-/

/-- A JavaScript value: undefined, null, boolean, number (integral),
string, array, or object (ordered association list of fields). -/
inductive J where
  | undef : J
  | null : J
  | bool : Bool → J
  | num : Int → J
  | str : String → J
  | arr : List J → J
  | obj : List (String × J) → J

/-- Field lookup in an ordered field list; a missing key yields `undefined`. -/
def lookupF : List (String × J) → String → J
  | [], _ => J.undef
  | (k', v) :: rest, k => if k' = k then v else lookupF rest k

/-- Property read `o[k]`: object field lookup, `undefined` on every
non-object (in particular on arrays, matching `service.methods` on an
array value). -/
def jGet (o : J) (k : String) : J :=
  match o with
  | .obj fs => lookupF fs k
  | _ => J.undef

/-- Field assignment in an ordered field list: updates the value in place
if the key exists (JavaScript keeps the original insertion position),
otherwise appends the field at the end. -/
def setF : List (String × J) → String → J → List (String × J)
  | [], k, v => [(k, v)]
  | (k', v') :: rest, k, v =>
      if k' = k then (k, v) :: rest else (k', v') :: setF rest k v

/-- Property write `o[k] = v` on an object; no-op on non-objects. -/
def jSet (o : J) (k : String) (v : J) : J :=
  match o with
  | .obj fs => .obj (setF fs k v)
  | _ => o

/-- `delete o[k]`: removes the field, keeping the order of the others. -/
def jDel (o : J) (k : String) : J :=
  match o with
  | .obj fs => .obj (fs.filter (fun kv => kv.1 ≠ k))
  | _ => o

/-- JavaScript truthiness: `undefined`, `null`, `false`, `0` and `""` are
falsy; every other value (including empty arrays and objects) is truthy. -/
def jTruthy : J → Bool
  | J.undef => false
  | .null => false
  | .bool b => b
  | .num n => n != 0
  | .str s => s ≠ ""
  | .arr _ => true
  | .obj _ => true

/-- JavaScript strict equality `===` restricted to the shapes compared in
the source: structural on primitives; comparisons involving arrays or
objects are reference comparisons of distinct references, hence `false`. -/
def jsStrictEq : J → J → Bool
  | J.undef, J.undef => true
  | .null, .null => true
  | .bool a, .bool b => a == b
  | .num a, .num b => a == b
  | .str a, .str b => a == b
  | _, _ => false

/-- `o.length` as a JavaScript value: a number for arrays and strings,
`undefined` otherwise. -/
def jLength : J → J
  | .arr xs => .num xs.length
  | .str s => .num s.length
  | _ => J.undef

/-- The guard `version.length > 1` of `describe`: comparison is `false`
when `length` is `undefined` (NaN comparison). -/
def jLenGtOne (g : J) : Bool :=
  match jLength g with
  | .num n => 1 < n
  | _ => false

/-- Index access `o[i]` for a natural index: array element, single-character
string for string indexing, `undefined` otherwise or out of range. -/
def jIdxNat (o : J) (i : Nat) : J :=
  match o with
  | .arr xs => xs.getD i J.undef
  | .str s =>
      match s.data.get? i with
      | some c => .str (String.singleton c)
      | none => J.undef
  | _ => J.undef

/-- Index access `o[i]` where the index is itself a JavaScript value, as in
`method[method.length - 1]`; non-numeric or negative indices yield
`undefined`. -/
def jIdxJ (o : J) (i : J) : J :=
  match i with
  | .num n => if n < 0 then J.undef else jIdxNat o n.toNat
  | _ => J.undef

/-- `x - 1` on a JavaScript value: numeric decrement, otherwise NaN
(which indexes to `undefined`, modelled by `undef`). -/
def jSub1 : J → J
  | .num n => .num (n - 1)
  | _ => J.undef

/-- `for (const x of v)` iterability: arrays iterate their elements,
strings iterate their characters (as one-character strings); every other
value raises a TypeError, modelled by `none`. -/
def jElems : J → Option (List J)
  | .arr xs => some xs
  | .str s => some (s.data.map (fun c => J.str (String.singleton c)))
  | _ => none

/-- Total variant of `jElems`, used only where iterability is established. -/
def jElemsD (g : J) : List J :=
  (jElems g).getD []

mutual
/-- JavaScript `String(v)` coercion on the shapes reached by the source's
template literals. -/
def jToStr : J → String
  | J.undef => "undefined"
  | .null => "null"
  | .bool b => if b then "true" else "false"
  | .num n => toString n
  | .str s => s
  | .arr xs => jToStrList xs
  | .obj _ => "[object Object]"

/-- Array-to-string coercion: elements joined with commas. -/
def jToStrList : List J → String
  | [] => ""
  | [x] => jToStr x
  | x :: rest => jToStr x ++ "," ++ jToStrList rest
end

/-- `paramsList` from the source: `Array.isArray(params) ? params : [params]`. -/
def paramsList (p : J) : List J :=
  match p with
  | .arr xs => xs
  | _ => [p]

/-!
## Transport invoker (`request` in `src/request.js`, lines 202-326 of the
concatenated source)

`processResponse` models the handling of a successful HTTP exchange whose
decoded body is given: the device-level `error` classification (benign
illegal state masking, power-off masking, protocol error throwing) together
with the `catch` branch that classifies the thrown `{response: ...}` value,
for a call with `pair` absent (the shape used by the service layer).
`buildHeaders` models the construction of the outgoing request headers.
-/

/-- A classified error thrown by `request`: the `new Error(...)` carrying
`title`, `code`, `message`, `soap`, `payload` and `url` assigned via
`Object.assign`.  `errMsg` is the message the `Error` was constructed
with. -/
structure CErr where
  errMsg : String
  title : String
  code : J
  message : J
  soap : J
  payload : J
  url : String

/-- `data.params && data.params.length ? data.params[0] : []` from the
classified-error payload construction. -/
def payloadParams (p : J) : J :=
  if jTruthy p && jTruthy (jLength p) then jIdxJ p (J.num 0) else J.arr []

/-- The diagnostic payload `{id, version, method, params}` attached to a
classified error, built from the request's `data` argument. -/
def mkPayload (data : J) : J :=
  J.obj [("id", jGet data "id"), ("version", jGet data "version"),
         ("method", jGet data "method"), ("params", payloadParams (jGet data "params"))]

/-- The classified error built in the `err.response` branch of the `catch`:
for a device-reported error the thrown value carries
`statusCode = error[0]`, `statusMessage = error[1]` and an empty body, whose
XML fault parse fails, so `soap` stays `{}`. -/
def mkHttpErr (code msg data : J) (url : String) : CErr :=
  { errMsg := jToStr code ++ " - " ++ jToStr msg
    title := "Invalid Response"
    code := code
    message := msg
    soap := J.obj []
    payload := mkPayload data
    url := url }

/-- The default result synthesized for a benign "Illegal State" device
error: `[{uri: false, source: 'application', title: 'Application'}]`
(field order as written in the source). -/
def defaultAppResult : J :=
  J.arr [J.obj [("uri", J.bool false), ("source", J.str "application"),
                ("title", J.str "Application")]]

/-- Lines 234-272 of the source with the `catch` classification applied:
sets `body.turnedOff = null`, inspects `body.error`; masks an
`error[1] === 'Illegal State'` body with `defaultAppResult`; masks a
power-off signature (`error[0] === 40005`, or `error[1]` one of the two
power-off strings) by returning the `[code, message]` pair as the result
with `turnedOff = true`; otherwise throws, and the thrown value is
classified into a `CErr`.  Returns `response.body` (the `pair` argument is
absent in service-layer calls). -/
def processResponse (data body : J) (url : String) : Except CErr J :=
  let body1 := jSet body "turnedOff" J.null
  let error := jGet body1 "error"
  if jTruthy error then
    if jsStrictEq (jIdxJ error (J.num 1)) (J.str "Illegal State") then
      .ok (jDel (jSet body1 "result" defaultAppResult) "error")
    else if jsStrictEq (jIdxJ error (J.num 0)) (J.num 40005)
        || jsStrictEq (jIdxJ error (J.num 1)) (J.str "Display Is Turned off")
        || jsStrictEq (jIdxJ error (J.num 1)) (J.str "not power-on") then
      .ok (jDel (jSet (jSet body1 "result" error) "turnedOff" (J.bool true)) "error")
    else
      .error (mkHttpErr (jIdxJ error (J.num 0)) (jIdxJ error (J.num 1)) data url)
  else
    .ok body1

/-- The fixed base headers of every request (lines 203-209). -/
def baseHeaders : List (String × J) :=
  [("Content-Type", J.str "text/xml; charset=UTF-8"),
   ("SOAPACTION", J.str "\"urn:schemas-sony-com:service:IRCC:1#X_SendIRCC\"")]

/-- Lines 219-228: the authentication header derived from the credentials
(`X-Auth-PSK` for a truthy `psk`, the `auth=` cookie for a token) is set
first; the caller-supplied extra headers are then spread in LAST
(`{...options.headers, ...headers}`), so a same-named caller header
replaces the value already present. -/
def buildHeaders (credentials : J) (extra : List (String × J)) : List (String × J) :=
  let withAuth :=
    if jTruthy (jGet credentials "psk") then
      setF baseHeaders "X-Auth-PSK" (jGet credentials "psk")
    else if jTruthy (jGet credentials "pin") && jTruthy (jGet (jGet credentials "pin") "token") then
      setF baseHeaders "Cookie" (J.str ("auth=" ++ jToStr (jGet (jGet credentials "pin") "token")))
    else
      baseHeaders
  extra.foldl (fun acc kv => setF acc kv.1 kv.2) withAuth

/-!
## Service protocol (`ServiceProtocol` class, lines 334-466 of the
concatenated source)

The network is abstracted by an oracle `ora : Nat → Except CErr J` giving,
for the n-th network call a `describe`/`invoke` execution performs, either
the body that `request` returned or the classified error it threw.
Execution results carry the final `this.methods` state and the list of
issued request envelopes, so that call counts and dispatched versions can
be stated.
-/

/-- The literal call envelope `{id, method, version, params}` built by the
service layer and passed to `request` as `data`. -/
structure RequestData where
  id : Int
  method : String
  version : J
  params : List J

/-- The envelope of the `getVersions` introspection call (lines 344-349). -/
def gvData : RequestData :=
  { id := 1, method := "getVersions", version := J.str "1.0", params := [] }

/-- The envelope of a `getMethodTypes` introspection call for one
(sub)version (lines 369-374 and 386-391). -/
def mtData (sub : J) : RequestData :=
  { id := 1, method := "getMethodTypes", version := J.str "1.0", params := paramsList sub }

/-- A value thrown inside `describe`'s `try` block: either a classified
error from `request`, or a TypeError (iterating a non-iterable
`getVersions` result, or mapping a missing `results` field). -/
inductive TryErr where
  | cerr : CErr → TryErr
  | typeErr : TryErr

/-- The error `describe` rethrows from its `catch` block: `new Error(err)`
wrapping the caught value (line 405). -/
inductive DescErr where
  | wrapped : TryErr → DescErr

/-- One catalog entry `{method: method[0], version: method[method.length - 1]}`
recorded for a reported method (lines 378-381 and 395-398). -/
def entryOf (m : J) : J :=
  J.obj [("method", jIdxNat m 0), ("version", jIdxJ m (jSub1 (jLength m)))]

/-- Intermediate discovery state: accumulated `this.methods`, index of the
next network call, and the envelopes issued so far. -/
structure DiscState where
  acc : List J
  idx : Nat
  calls : List RequestData

/-- One `getMethodTypes` round trip: issues the envelope, then maps
`response.results` through `entryOf`.  Returns the mapped entries, the
state after the call (accumulator untouched), and the error thrown, if
any: the classified error of a failed call, or the TypeError raised by
`response.results.map` when `results` is not an array. -/
def callMT (ora : Nat → Except CErr J) (st : DiscState) (sub : J) :
    List J × DiscState × Option TryErr :=
  let st' : DiscState := { acc := st.acc, idx := st.idx + 1, calls := st.calls ++ [mtData sub] }
  match ora st.idx with
  | .error e => ([], st', some (.cerr e))
  | .ok body =>
      match jGet body "results" with
      | .arr rs => (rs.map entryOf, st', none)
      | _ => ([], st', some .typeErr)

/-- The inner loop `for (const subversion of version)` (lines 368-384):
one `getMethodTypes` call per subversion, each mapped result concatenated
flat onto `this.methods`; stops at the first thrown error, keeping the
entries recorded before it. -/
def loopSubs (ora : Nat → Except CErr J) (subs : List J) (st : DiscState) :
    DiscState × Option TryErr :=
  match subs with
  | [] => (st, none)
  | s :: rest =>
      match callMT ora st s with
      | (mapped, st', none) =>
          loopSubs ora rest { acc := st'.acc ++ mapped, idx := st'.idx, calls := st'.calls }
      | (_, st', some e) => (st', some e)

/-- The outer loop `for (const version of versions)` (lines 366-402): a
group with `length > 1` (an array of two or more subversions, or a string
of two or more characters, iterated per character) runs the inner loop;
any other group gets a single `getMethodTypes` call whose mapped results
are `push`ed as ONE nested array item. -/
def loopGroups (ora : Nat → Except CErr J) (gs : List J) (st : DiscState) :
    DiscState × Option TryErr :=
  match gs with
  | [] => (st, none)
  | g :: rest =>
      if jLenGtOne g then
        match loopSubs ora (jElemsD g) st with
        | (st', none) => loopGroups ora rest st'
        | (st', some e) => (st', some e)
      else
        match callMT ora st g with
        | (mapped, st', none) =>
            loopGroups ora rest
              { acc := st'.acc ++ [J.arr mapped], idx := st'.idx, calls := st'.calls }
        | (_, st', some e) => (st', some e)

/-- The structure `{protocol, methods}` returned by `describe`'s discovery
path (lines 409-412). -/
def describeObj (protocol : String) (methods : List J) : J :=
  J.obj [("protocol", J.str protocol), ("methods", J.arr methods)]

/-- The outcome of one `describe` execution: its return value or thrown
error, the final `this.methods`, and the network envelopes issued. -/
structure RunOut where
  result : Except DescErr J
  methods : List J
  calls : List RequestData

/-- `describe(version)` (lines 354-413).  With a populated catalog it
returns the bare `this.methods` array, filtered by `version` when that is
truthy, and issues no network call.  Otherwise it runs discovery:
`getVersions` first, then the group loop; a caught error whose `code` is
strictly `404` is swallowed (keeping whatever was recorded), any other
caught value is rethrown wrapped in a new Error.  The discovery path
returns `{protocol, methods}`. -/
def describeRun (protocol : String) (methods0 : List J) (version : J)
    (ora : Nat → Except CErr J) : RunOut :=
  if 0 < methods0.length then
    if jTruthy version then
      { result := .ok (J.arr (methods0.filter (fun m => jsStrictEq (jGet m "version") version)))
        methods := methods0, calls := [] }
    else
      { result := .ok (J.arr methods0), methods := methods0, calls := [] }
  else
    match ora 0 with
    | .error e =>
        if jsStrictEq e.code (J.num 404) then
          { result := .ok (describeObj protocol methods0), methods := methods0, calls := [gvData] }
        else
          { result := .error (.wrapped (.cerr e)), methods := methods0, calls := [gvData] }
    | .ok body =>
        match jElems (jGet body "result") with
        | none =>
            { result := .error (.wrapped .typeErr), methods := methods0, calls := [gvData] }
        | some gs =>
            match loopGroups ora gs { acc := methods0, idx := 1, calls := [gvData] } with
            | (st, none) =>
                { result := .ok (describeObj protocol st.acc), methods := st.acc, calls := st.calls }
            | (st, some (.cerr e)) =>
                if jsStrictEq e.code (J.num 404) then
                  { result := .ok (describeObj protocol st.acc), methods := st.acc, calls := st.calls }
                else
                  { result := .error (.wrapped (.cerr e)), methods := st.acc, calls := st.calls }
            | (st, some .typeErr) =>
                { result := .error (.wrapped .typeErr), methods := st.acc, calls := st.calls }

/-- The "Unknown Service Method" error built by `invoke`
(lines 428-437). -/
def unknownErr (method url : String) (payload : J) : CErr :=
  { errMsg := "Service Methods \"" ++ method ++ "\" not known!"
    title := "Unknown Service Method"
    code := J.str "UNKNOWN"
    message := J.str "Unknown Service Method"
    soap := J.obj []
    payload := payload
    url := url }

/-- What one `invoke` execution does after `describe` returns: a TypeError
(reading `.filter` of a non-array `service.methods`), the local
"Unknown Service Method" error, a dispatched network request, or a
propagated `describe` failure. -/
inductive InvokeOutcome where
  | typeErr : InvokeOutcome
  | unknown : CErr → InvokeOutcome
  | dispatched : RequestData → List (String × J) → InvokeOutcome
  | errored : DescErr → InvokeOutcome

/-- Lines 422-462 after `describe` has produced `service`: reads
`service.methods` (TypeError unless it is an array), filters the entries
whose `method` field strictly equals the requested name, fails locally
when none match, otherwise keeps the requested version if some matching
entry carries it and else substitutes the last matching entry's version,
and finally builds the dispatch envelope. -/
def invokeAfter (url method : String) (version data : J)
    (headers : List (String × J)) (service : J) : InvokeOutcome :=
  match jGet service "methods" with
  | .arr items =>
      let methodExist := items.filter (fun am => jsStrictEq (jGet am "method") (J.str method))
      if methodExist.length = 0 then
        .unknown (unknownErr method url data)
      else
        match methodExist.find? (fun am => jsStrictEq (jGet am "version") version) with
        | some _ =>
            .dispatched { id := 1, method := method, version := version,
                          params := paramsList data } headers
        | none =>
            .dispatched { id := 1, method := method,
                          version := jGet (methodExist.getLastD J.undef) "version",
                          params := paramsList data } headers
  | _ => .typeErr

/-- The outcome of one `invoke` execution, together with the final
`this.methods` and the discovery envelopes issued by the embedded
`describe` (the dispatched envelope itself is carried by the outcome). -/
structure InvokeRun where
  outcome : InvokeOutcome
  methods : List J
  calls : List RequestData

/-- `invoke(method, version, data, headers)` (lines 415-463): runs
`describe(version)` on the current state, then resolves and dispatches. -/
def invokeRun (protocol url : String) (methods0 : List J) (method : String)
    (version data : J) (headers : List (String × J))
    (ora : Nat → Except CErr J) : InvokeRun :=
  let r := describeRun protocol methods0 version ora
  match r.result with
  | .error e => { outcome := .errored e, methods := r.methods, calls := r.calls }
  | .ok service =>
      { outcome := invokeAfter url method version data headers service
        methods := r.methods, calls := r.calls }

/-!
## Auxiliary definitions used by the statements

Specification-side views of discovery (`groupSubs`, `groupCalls`,
`subsEntries`, `groupEntries`) and concrete transport oracles used as
inputs.
-/

/-- The results array of one `getMethodTypes` answer as consumed by
`response.results.map` (empty when the call failed or the field is not an
array; those cases raise instead and are excluded by `mtOk`). -/
def mtResults (r : Except CErr J) : List J :=
  match r with
  | .ok body =>
      match jGet body "results" with
      | .arr rs => rs
      | _ => []
  | .error _ => []

/-- Whether one network answer lets `response.results.map` proceed: a
returned body whose `results` field is an array. -/
def mtOk (r : Except CErr J) : Bool :=
  match r with
  | .ok body =>
      match jGet body "results" with
      | .arr _ => true
      | _ => false
  | .error _ => false

/-- The (sub)versions the code iterates for one version group: the
elements of an array of length > 1, the characters of a string of length
> 1 (one-character strings), and otherwise the group itself. -/
def groupSubs (g : J) : List J :=
  if jLenGtOne g then jElemsD g else [g]

/-- The `getMethodTypes` envelopes discovery issues for a list of version
groups: one call per code-construed (sub)version. -/
def groupCalls (gs : List J) : List RequestData :=
  gs.flatMap (fun g => (groupSubs g).map mtData)

/-- The flat catalog entries recorded by the inner subversion loop,
starting at network-call index `i`: the `entryOf`-image of each answer's
reported methods, in call order. -/
def subsEntries (ora : Nat → Except CErr J) : Nat → List J → List J
  | _, [] => []
  | i, _ :: rest => (mtResults (ora i)).map entryOf ++ subsEntries ora (i + 1) rest

/-- The catalog items recorded for a list of version groups starting at
network-call index `i`: flat entries for a group with `length > 1`, and a
single nested array item for any other group. -/
def groupEntries (ora : Nat → Except CErr J) : Nat → List J → List J
  | _, [] => []
  | i, g :: rest =>
      (if jLenGtOne g then subsEntries ora i (jElemsD g)
       else [J.arr ((mtResults (ora i)).map entryOf)])
      ++ groupEntries ora (i + (groupSubs g).length) rest

/-- Catalog entry for method `getFoo` at version `1.0`. -/
def entry10 : J := J.obj [("method", J.str "getFoo"), ("version", J.str "1.0")]

/-- Catalog entry for method `getFoo` at version `1.1`. -/
def entry11 : J := J.obj [("method", J.str "getFoo"), ("version", J.str "1.1")]

/-- Transport oracle: `getVersions` answers the single group
`["1.0", "1.1"]`; `getMethodTypes` reports `getFoo` at `1.0` for the
first subversion and at `1.1` afterwards. -/
def oraPair : Nat → Except CErr J := fun n =>
  match n with
  | 0 => .ok (J.obj [("result", J.arr [J.arr [J.str "1.0", J.str "1.1"]])])
  | 1 => .ok (J.obj [("results", J.arr [J.arr [J.str "getFoo", J.str "1.0"]])])
  | _ => .ok (J.obj [("results", J.arr [J.arr [J.str "getFoo", J.str "1.1"]])])

/-- Transport oracle: `getVersions` answers `["1.0"]`, i.e. one version
group that is the bare string `"1.0"`; every `getMethodTypes` answer
reports no methods. -/
def oraChars : Nat → Except CErr J := fun n =>
  match n with
  | 0 => .ok (J.obj [("result", J.arr [J.str "1.0"])])
  | _ => .ok (J.obj [("results", J.arr [])])

/-- A classified "not found" transport failure (HTTP 404 from an endpoint
without introspection support). -/
def err404 : CErr :=
  { errMsg := "404 - Not Found", title := "Invalid Response", code := J.num 404,
    message := J.str "Not Found", soap := J.obj [], payload := J.obj [], url := "u" }

/-- A classified transport failure with a non-404 code. -/
def err401 : CErr :=
  { errMsg := "401 - Unauthorized", title := "Invalid Response", code := J.num 401,
    message := J.str "Unauthorized", soap := J.obj [], payload := J.obj [], url := "u" }

/-- Transport oracle: discovery succeeds for the group `["1.0", "1.1"]`
and its first subversion, then the second `getMethodTypes` call fails
with the classified 404. -/
def ora404late : Nat → Except CErr J := fun n =>
  match n with
  | 0 => .ok (J.obj [("result", J.arr [J.arr [J.str "1.0", J.str "1.1"]])])
  | 1 => .ok (J.obj [("results", J.arr [J.arr [J.str "getFoo", J.str "1.0"]])])
  | _ => .error err404

/-- Transport oracle failing every call with the classified 404. -/
def oraFail404 : Nat → Except CErr J := fun _ => .error err404

/-- Transport oracle failing every call with a classified 401. -/
def oraFail401 : Nat → Except CErr J := fun _ => .error err401

/-- The body returned for a power-off device answer
`{error: [40005, "Display Is Turned off"]}`. -/
def powerOffBody : J :=
  J.obj [("turnedOff", J.bool true),
         ("result", J.arr [J.num 40005, J.str "Display Is Turned off"])]

/-- The body returned for a masked benign "Illegal State" device answer. -/
def illegalMaskedBody : J :=
  J.obj [("turnedOff", J.null), ("result", defaultAppResult)]

/-- The catalog items recorded by a discovery that fails at the `j`-th
(sub)version call of group `g`, after the fully processed prefix groups
`gpre`: all entries of the prefix, plus — when `g` is iterated flat — the
entries of `g`'s subversions answered before the failing call; a failing
push-branch call records nothing, since the `push` follows the call. -/
def failEntries (ora : Nat → Except CErr J) (gpre : List J) (g : J) (j : Nat) : List J :=
  groupEntries ora 1 gpre
    ++ (if jLenGtOne g
        then subsEntries ora (1 + (gpre.flatMap groupSubs).length) ((jElemsD g).take j)
        else [])

/-- The envelopes issued by a discovery that fails at the `j`-th
(sub)version call of group `g` after the prefix groups `gpre`:
`getVersions`, the prefix calls, then `g`'s calls up to and including the
failing one. -/
def failCalls (gpre : List J) (g : J) (j : Nat) : List RequestData :=
  gvData :: (groupCalls gpre ++ ((groupSubs g).take (j + 1)).map mtData)

/-- Transport oracle: discovery succeeds for the group `["1.0", "1.1"]`
and its first subversion, then the second `getMethodTypes` call fails
with a classified 401. -/
def ora401late : Nat → Except CErr J := fun n =>
  match n with
  | 0 => .ok (J.obj [("result", J.arr [J.arr [J.str "1.0", J.str "1.1"]])])
  | 1 => .ok (J.obj [("results", J.arr [J.arr [J.str "getFoo", J.str "1.0"]])])
  | _ => .error err401

/-!
## Helper lemmas
-/

/-- Looking up a key right after setting it yields the new value. -/
theorem lookupF_setF_same (l : List (String × J)) (k : String) (v : J) :
    lookupF (setF l k v) k = v := by
  induction l with
  | nil => simp [setF, lookupF]
  | cons kv rest ih =>
      by_cases h : kv.1 = k
      · simp [setF, lookupF, h]
      · simp [setF, lookupF, h, ih]

/-- Setting a different key does not change a lookup. -/
theorem lookupF_setF_other (l : List (String × J)) (k' k : String) (v : J)
    (h : k' ≠ k) : lookupF (setF l k' v) k = lookupF l k := by
  induction l with
  | nil => simp [setF, lookupF, h]
  | cons kv rest ih =>
      by_cases hk : kv.1 = k'
      · simp [setF, lookupF, hk, h]
      · simp only [setF, hk, if_neg hk, lookupF]
        by_cases hk2 : kv.1 = k
        · simp [lookupF, hk2]
        · simp [lookupF, hk2, ih]

/-- Spreading extra fields whose keys avoid `k` does not change the lookup
of `k`. -/
theorem lookupF_foldl_setF (extra : List (String × J)) (base : List (String × J))
    (k : String) (h : k ∉ extra.map Prod.fst) :
    lookupF (extra.foldl (fun acc kv => setF acc kv.1 kv.2) base) k = lookupF base k := by
  induction extra generalizing base with
  | nil => rfl
  | cons kv rest ih =>
      simp only [List.map, List.mem_cons, not_or] at h
      simp only [List.foldl_cons]
      rw [ih _ h.2, lookupF_setF_other _ _ _ _ (fun he => h.1 he.symm)]

/-- `l[l.length - 1]` with a default agrees with `getLastD`. -/
theorem getD_length_sub_one (l : List J) (d : J) :
    l.getD (l.length - 1) d = l.getLastD d := by
  induction l with
  | nil => rfl
  | cons x rest ih =>
      cases rest with
      | nil => rfl
      | cons y t =>
          have h : (x :: y :: t).length - 1 = ((y :: t).length - 1) + 1 := by
            simp
          rw [h]
          show (y :: t).getD ((y :: t).length - 1) d = _
          rw [ih]
          rfl

/-- The inner subversion loop under all-good answers: one call per
subversion, entries recorded flat in call order, no error. -/
theorem loopSubs_spec (ora : Nat → Except CErr J) (subs : List J) (st : DiscState)
    (h : ∀ n, st.idx ≤ n → mtOk (ora n) = true) :
    loopSubs ora subs st
      = ({ acc := st.acc ++ subsEntries ora st.idx subs,
           idx := st.idx + subs.length,
           calls := st.calls ++ subs.map mtData }, none) := by
  induction subs generalizing st with
  | nil => simp [loopSubs, subsEntries]
  | cons s rest ih =>
      have h0 := h st.idx (Nat.le_refl _)
      cases hra : ora st.idx with
      | error e =>
          rw [hra] at h0
          exact absurd h0 (by simp [mtOk])
      | ok body =>
          rw [hra] at h0
          have harr : ∃ rs, jGet body "results" = J.arr rs := by
            cases hrb : jGet body "results"
            case arr rs => exact ⟨rs, rfl⟩
            all_goals simp [mtOk, hrb] at h0
          obtain ⟨rs, hrb⟩ := harr
          have hc : callMT ora st s
              = (rs.map entryOf,
                 { acc := st.acc, idx := st.idx + 1, calls := st.calls ++ [mtData s] },
                 none) := by
            simp [callMT, hra, hrb]
          have h' : ∀ n, st.idx + 1 ≤ n → mtOk (ora n) = true :=
            fun n hn => h n (by omega)
          unfold loopSubs
          rw [hc]
          dsimp only
          rw [ih { acc := st.acc ++ List.map entryOf rs, idx := st.idx + 1,
                   calls := st.calls ++ [mtData s] } h']
          simp only [Prod.mk.injEq, DiscState.mk.injEq]
          refine ⟨⟨?_, ?_, ?_⟩, trivial⟩
          · simp [subsEntries, mtResults, hra, hrb]
          · simp [List.length_cons]
            omega
          · simp

/-- The outer group loop under all-good answers: per group with
`length > 1`, one call per element (or character) with flat entries;
otherwise one call whose entries are pushed as a nested item; no error. -/
theorem loopGroups_spec (ora : Nat → Except CErr J) (gs : List J) (st : DiscState)
    (h : ∀ n, st.idx ≤ n → mtOk (ora n) = true) :
    loopGroups ora gs st
      = ({ acc := st.acc ++ groupEntries ora st.idx gs,
           idx := st.idx + (gs.flatMap groupSubs).length,
           calls := st.calls ++ groupCalls gs }, none) := by
  induction gs generalizing st with
  | nil => simp [loopGroups, groupEntries, groupCalls]
  | cons g rest ih =>
      unfold loopGroups
      by_cases hg : jLenGtOne g = true
      · rw [if_pos hg]
        rw [loopSubs_spec ora (jElemsD g) st h]
        dsimp only
        have h' : ∀ n, st.idx + (jElemsD g).length ≤ n → mtOk (ora n) = true :=
          fun n hn => h n (by omega)
        rw [ih { acc := st.acc ++ subsEntries ora st.idx (jElemsD g),
                 idx := st.idx + (jElemsD g).length,
                 calls := st.calls ++ (jElemsD g).map mtData } h']
        simp only [Prod.mk.injEq, DiscState.mk.injEq]
        refine ⟨⟨?_, ?_, ?_⟩, trivial⟩
        · simp [groupEntries, groupSubs, hg, List.append_assoc]
        · simp [groupSubs, hg, List.flatMap_cons]
          omega
        · simp [groupCalls, groupSubs, hg, List.flatMap_cons]
      · rw [if_neg hg]
        have h0 := h st.idx (Nat.le_refl _)
        cases hra : ora st.idx with
        | error e =>
            rw [hra] at h0
            exact absurd h0 (by simp [mtOk])
        | ok body =>
            rw [hra] at h0
            have harr : ∃ rs, jGet body "results" = J.arr rs := by
              cases hrb : jGet body "results"
              case arr rs => exact ⟨rs, rfl⟩
              all_goals simp [mtOk, hrb] at h0
            obtain ⟨rs, hrb⟩ := harr
            have hc : callMT ora st g
                = (rs.map entryOf,
                   { acc := st.acc, idx := st.idx + 1, calls := st.calls ++ [mtData g] },
                   none) := by
              simp [callMT, hra, hrb]
            rw [hc]
            dsimp only
            have h' : ∀ n, st.idx + 1 ≤ n → mtOk (ora n) = true :=
              fun n hn => h n (by omega)
            rw [ih { acc := st.acc ++ [J.arr (List.map entryOf rs)], idx := st.idx + 1,
                     calls := st.calls ++ [mtData g] } h']
            simp only [Prod.mk.injEq, DiscState.mk.injEq]
            refine ⟨⟨?_, ?_, ?_⟩, trivial⟩
            · simp [groupEntries, groupSubs, hg, mtResults, hra, hrb, List.append_assoc]
            · simp [groupSubs, hg, List.flatMap_cons]
              omega
            · simp [groupCalls, groupSubs, hg, List.flatMap_cons]

/-- Variant of `loopSubs_spec` needing good answers only for the calls
the loop actually issues. -/
theorem loopSubs_spec_bounded (ora : Nat → Except CErr J) (subs : List J) (st : DiscState)
    (h : ∀ n, st.idx ≤ n → n < st.idx + subs.length → mtOk (ora n) = true) :
    loopSubs ora subs st
      = ({ acc := st.acc ++ subsEntries ora st.idx subs,
           idx := st.idx + subs.length,
           calls := st.calls ++ subs.map mtData }, none) := by
  induction subs generalizing st with
  | nil => simp [loopSubs, subsEntries]
  | cons s rest ih =>
      have h0 := h st.idx (Nat.le_refl _) (by rw [List.length_cons]; omega)
      cases hra : ora st.idx with
      | error e =>
          rw [hra] at h0
          exact absurd h0 (by simp [mtOk])
      | ok body =>
          rw [hra] at h0
          have harr : ∃ rs, jGet body "results" = J.arr rs := by
            cases hrb : jGet body "results"
            case arr rs => exact ⟨rs, rfl⟩
            all_goals simp [mtOk, hrb] at h0
          obtain ⟨rs, hrb⟩ := harr
          have hc : callMT ora st s
              = (rs.map entryOf,
                 { acc := st.acc, idx := st.idx + 1, calls := st.calls ++ [mtData s] },
                 none) := by
            simp [callMT, hra, hrb]
          have h' : ∀ n, st.idx + 1 ≤ n → n < st.idx + 1 + rest.length →
              mtOk (ora n) = true :=
            fun n hn hn2 => h n (by omega) (by rw [List.length_cons]; omega)
          unfold loopSubs
          rw [hc]
          dsimp only
          rw [ih { acc := st.acc ++ List.map entryOf rs, idx := st.idx + 1,
                   calls := st.calls ++ [mtData s] } h']
          simp only [Prod.mk.injEq, DiscState.mk.injEq]
          refine ⟨⟨?_, ?_, ?_⟩, trivial⟩
          · simp [subsEntries, mtResults, hra, hrb]
          · simp [List.length_cons]
            omega
          · simp

/-- The inner subversion loop when the oracle answers the first `j` calls
well and fails the next with the classified error `e`: the loop stops at
the failing call, having recorded the entries of the `j` good answers and
issued `j + 1` envelopes. -/
theorem loopSubs_fail (ora : Nat → Except CErr J) (subs : List J) (st : DiscState)
    (j : Nat) (e : CErr) (hj : j < subs.length)
    (h : ∀ n, st.idx ≤ n → n < st.idx + j → mtOk (ora n) = true)
    (hfail : ora (st.idx + j) = .error e) :
    loopSubs ora subs st
      = ({ acc := st.acc ++ subsEntries ora st.idx (subs.take j),
           idx := st.idx + j + 1,
           calls := st.calls ++ (subs.take (j + 1)).map mtData }, some (.cerr e)) := by
  induction subs generalizing st j with
  | nil => exact absurd hj (by simp)
  | cons s rest ih =>
      cases j with
      | zero =>
          rw [Nat.add_zero] at hfail
          have hc : callMT ora st s
              = ([], { acc := st.acc, idx := st.idx + 1, calls := st.calls ++ [mtData s] },
                 some (.cerr e)) := by
            simp [callMT, hfail]
          unfold loopSubs
          rw [hc]
          dsimp only
          simp [subsEntries]
      | succ j' =>
          have h0 := h st.idx (Nat.le_refl _) (by omega)
          cases hra : ora st.idx with
          | error e2 =>
              rw [hra] at h0
              exact absurd h0 (by simp [mtOk])
          | ok body =>
              rw [hra] at h0
              have harr : ∃ rs, jGet body "results" = J.arr rs := by
                cases hrb : jGet body "results"
                case arr rs => exact ⟨rs, rfl⟩
                all_goals simp [mtOk, hrb] at h0
              obtain ⟨rs, hrb⟩ := harr
              have hc : callMT ora st s
                  = (rs.map entryOf,
                     { acc := st.acc, idx := st.idx + 1, calls := st.calls ++ [mtData s] },
                     none) := by
                simp [callMT, hra, hrb]
              have h' : ∀ n, st.idx + 1 ≤ n → n < st.idx + 1 + j' →
                  mtOk (ora n) = true :=
                fun n hn hn2 => h n (by omega) (by omega)
              have hfail' : ora (st.idx + 1 + j') = .error e := by
                rw [show st.idx + 1 + j' = st.idx + (j' + 1) from by omega]
                exact hfail
              have hj' : j' < rest.length := by
                rw [List.length_cons] at hj
                omega
              unfold loopSubs
              rw [hc]
              dsimp only
              rw [ih { acc := st.acc ++ List.map entryOf rs, idx := st.idx + 1,
                       calls := st.calls ++ [mtData s] } j' hj' h' hfail']
              simp only [Prod.mk.injEq, DiscState.mk.injEq]
              refine ⟨⟨?_, ?_, ?_⟩, trivial⟩
              · simp [List.take_succ_cons, subsEntries, mtResults, hra, hrb]
              · omega
              · simp [List.take_succ_cons]

/-- The outer group loop when the prefix groups `gpre` are answered well
and the failure — the classified error `e` — hits the `j`-th (sub)version
call of the next group `g`: the loop stops there, keeping the prefix
entries plus, in the flat branch, the entries of `g`'s good answers
(a failing push-branch call records nothing). -/
theorem loopGroups_fail (ora : Nat → Except CErr J) (gpre : List J) (g : J)
    (grest : List J) (st : DiscState) (j : Nat) (e : CErr)
    (hj : j < (groupSubs g).length)
    (h : ∀ n, st.idx ≤ n → n < st.idx + (gpre.flatMap groupSubs).length + j →
        mtOk (ora n) = true)
    (hfail : ora (st.idx + (gpre.flatMap groupSubs).length + j) = .error e) :
    loopGroups ora (gpre ++ g :: grest) st
      = ({ acc := st.acc ++ groupEntries ora st.idx gpre
             ++ (if jLenGtOne g
                 then subsEntries ora (st.idx + (gpre.flatMap groupSubs).length)
                        ((jElemsD g).take j)
                 else []),
           idx := st.idx + (gpre.flatMap groupSubs).length + j + 1,
           calls := st.calls ++ groupCalls gpre
             ++ ((groupSubs g).take (j + 1)).map mtData }, some (.cerr e)) := by
  induction gpre generalizing st with
  | nil =>
      simp only [List.nil_append, List.flatMap_nil, List.length_nil, Nat.add_zero]
        at h hfail ⊢
      unfold loopGroups
      by_cases hg : jLenGtOne g = true
      · rw [if_pos hg]
        have hj2 : j < (jElemsD g).length := by
          simpa [groupSubs, hg] using hj
        rw [loopSubs_fail ora (jElemsD g) st j e hj2 h hfail]
        simp [groupEntries, groupCalls, groupSubs, hg]
      · rw [if_neg hg]
        have hj0 : j = 0 := by
          simp [groupSubs, hg] at hj
          omega
        subst hj0
        rw [Nat.add_zero] at hfail
        have hc : callMT ora st g
            = ([], { acc := st.acc, idx := st.idx + 1, calls := st.calls ++ [mtData g] },
               some (.cerr e)) := by
          simp [callMT, hfail]
        rw [hc]
        dsimp only
        simp [groupEntries, groupCalls, groupSubs, hg]
  | cons g0 rest0 ih =>
      have htot : ((g0 :: rest0).flatMap groupSubs).length
          = (groupSubs g0).length + (rest0.flatMap groupSubs).length := by
        simp [List.flatMap_cons]
      simp only [List.cons_append]
      unfold loopGroups
      by_cases hg0 : jLenGtOne g0 = true
      · have hlen0 : (groupSubs g0).length = (jElemsD g0).length := by
          simp [groupSubs, hg0]
        rw [if_pos hg0]
        have hgood : ∀ n, st.idx ≤ n → n < st.idx + (jElemsD g0).length →
            mtOk (ora n) = true := by
          intro n hn hn2
          refine h n hn ?_
          rw [htot, hlen0]
          omega
        rw [loopSubs_spec_bounded ora (jElemsD g0) st hgood]
        dsimp only
        have h' : ∀ n, st.idx + (jElemsD g0).length ≤ n →
            n < st.idx + (jElemsD g0).length + (rest0.flatMap groupSubs).length + j →
            mtOk (ora n) = true := by
          intro n hn hn2
          refine h n (by omega) ?_
          rw [htot, hlen0]
          omega
        have harith : st.idx + (jElemsD g0).length + (rest0.flatMap groupSubs).length + j
            = st.idx + ((g0 :: rest0).flatMap groupSubs).length + j := by
          rw [htot, hlen0]
          omega
        have hfail' : ora (st.idx + (jElemsD g0).length
            + (rest0.flatMap groupSubs).length + j) = .error e := by
          rw [harith]
          exact hfail
        rw [ih { acc := st.acc ++ subsEntries ora st.idx (jElemsD g0),
                 idx := st.idx + (jElemsD g0).length,
                 calls := st.calls ++ (jElemsD g0).map mtData } h' hfail']
        simp only [Prod.mk.injEq, DiscState.mk.injEq]
        refine ⟨⟨?_, ?_, ?_⟩, trivial⟩
        · simp [groupEntries, groupSubs, hg0, htot, List.append_assoc, Nat.add_assoc]
        · rw [htot, hlen0]
          omega
        · simp [groupCalls, groupSubs, hg0, List.flatMap_cons, List.append_assoc]
      · have hlen0 : (groupSubs g0).length = 1 := by
          simp [groupSubs, hg0]
        rw [if_neg hg0]
        have h0 := h st.idx (Nat.le_refl _) (by rw [htot, hlen0]; omega)
        cases hra : ora st.idx with
        | error e2 =>
            rw [hra] at h0
            exact absurd h0 (by simp [mtOk])
        | ok body =>
            rw [hra] at h0
            have harr : ∃ rs, jGet body "results" = J.arr rs := by
              cases hrb : jGet body "results"
              case arr rs => exact ⟨rs, rfl⟩
              all_goals simp [mtOk, hrb] at h0
            obtain ⟨rs, hrb⟩ := harr
            have hc : callMT ora st g0
                = (rs.map entryOf,
                   { acc := st.acc, idx := st.idx + 1, calls := st.calls ++ [mtData g0] },
                   none) := by
              simp [callMT, hra, hrb]
            rw [hc]
            dsimp only
            have h' : ∀ n, st.idx + 1 ≤ n →
                n < st.idx + 1 + (rest0.flatMap groupSubs).length + j →
                mtOk (ora n) = true := by
              intro n hn hn2
              refine h n (by omega) ?_
              rw [htot, hlen0]
              omega
            have harith : st.idx + 1 + (rest0.flatMap groupSubs).length + j
                = st.idx + ((g0 :: rest0).flatMap groupSubs).length + j := by
              rw [htot, hlen0]
              omega
            have hfail' : ora (st.idx + 1 + (rest0.flatMap groupSubs).length + j)
                = .error e := by
              rw [harith]
              exact hfail
            rw [ih { acc := st.acc ++ [J.arr (List.map entryOf rs)], idx := st.idx + 1,
                     calls := st.calls ++ [mtData g0] } h' hfail']
            simp only [Prod.mk.injEq, DiscState.mk.injEq]
            refine ⟨⟨?_, ?_, ?_⟩, trivial⟩
            · simp [groupEntries, groupSubs, hg0, mtResults, hra, hrb, htot,
                    List.append_assoc, Nat.add_assoc, Nat.add_comm, Nat.add_left_comm]
            · rw [htot, hlen0]
              omega
            · simp [groupCalls, groupSubs, hg0, List.flatMap_cons, List.append_assoc]

/-!
## Claim theorems
-/

/-- C4: for every transport response whose body is
`{error: [40005, "Display Is Turned off"]}`, `request` does not throw: it
returns a result-shaped body whose `turnedOff` flag is `true`, whose
`result` is the original two-element array
`[40005, "Display Is Turned off"]`, and whose `error` field is removed. -/
theorem c4_power_off_masked (data : J) (url : String) :
    processResponse data
        (J.obj [("error", J.arr [J.num 40005, J.str "Display Is Turned off"])]) url
      = Except.ok powerOffBody
    ∧ jGet powerOffBody "turnedOff" = J.bool true
    ∧ jGet powerOffBody "result" = J.arr [J.num 40005, J.str "Display Is Turned off"]
    ∧ jGet powerOffBody "error" = J.undef :=
  ⟨rfl, rfl, rfl, rfl⟩

/-- C5: for every transport response whose body is
`{error: [7, "Illegal State"]}`, `request` does not throw and returns a
body whose `result` field is the one-element array containing the default
application source descriptor (`source: "application"`,
`title: "Application"`, `uri: false`), with the `error` field removed. -/
theorem c5_illegal_state_masked (data : J) (url : String) :
    processResponse data (J.obj [("error", J.arr [J.num 7, J.str "Illegal State"])]) url
      = Except.ok illegalMaskedBody
    ∧ jGet illegalMaskedBody "result" = J.arr [J.obj
        [("uri", J.bool false), ("source", J.str "application"), ("title", J.str "Application")]]
    ∧ jGet (jIdxNat (jGet illegalMaskedBody "result") 0) "source" = J.str "application"
    ∧ jGet (jIdxNat (jGet illegalMaskedBody "result") 0) "title" = J.str "Application"
    ∧ jGet (jIdxNat (jGet illegalMaskedBody "result") 0) "uri" = J.bool false
    ∧ jGet illegalMaskedBody "error" = J.undef :=
  ⟨rfl, rfl, rfl, rfl, rfl, rfl⟩

/-- C6: for every transport response whose body is
`{error: [401, "Unauthorized"]}` — matching neither the benign
illegal-state nor the power-off signature — `request` throws a classified
error whose `code` field is `401` and whose `message` field is
`"Unauthorized"`. -/
theorem c6_device_error_thrown (data : J) (url : String) :
    processResponse data (J.obj [("error", J.arr [J.num 401, J.str "Unauthorized"])]) url
      = Except.error (mkHttpErr (J.num 401) (J.str "Unauthorized") data url)
    ∧ (mkHttpErr (J.num 401) (J.str "Unauthorized") data url).code = J.num 401
    ∧ (mkHttpErr (J.num 401) (J.str "Unauthorized") data url).message = J.str "Unauthorized"
    ∧ (mkHttpErr (J.num 401) (J.str "Unauthorized") data url).title = "Invalid Response" :=
  ⟨rfl, rfl, rfl, rfl⟩

/-- C10: the benign-illegal-state masking is decided by the error message
alone: for every numeric code `c`, a body `{error: [c, "Illegal State"]}`
is masked into the synthesized default result, with no error thrown,
whatever `c` is. -/
theorem c10_illegal_state_any_code (c : Int) (data : J) (url : String) :
    processResponse data (J.obj [("error", J.arr [J.num c, J.str "Illegal State"])]) url
      = Except.ok illegalMaskedBody :=
  rfl

/-- C9 counterexample: with credentials `{psk: "secret"}` and the
caller-supplied extra header `X-Auth-PSK: "evil"`, the outgoing headers
carry the caller's value, not the credential-derived one — the extra
headers are spread in last and DO replace the authentication header,
falsifying the claim that a same-named caller header never replaces it. -/
theorem c9_counterexample :
    lookupF (buildHeaders (J.obj [("psk", J.str "secret")])
        [("X-Auth-PSK", J.str "evil")]) "X-Auth-PSK" = J.str "evil"
    ∧ lookupF (buildHeaders (J.obj [("psk", J.str "secret")])
        [("X-Auth-PSK", J.str "evil")]) "X-Auth-PSK" ≠ J.str "secret" := by
  refine ⟨rfl, ?_⟩
  intro h
  have h2 : J.str "evil" = J.str "secret" := h
  injection h2 with h3
  exact absurd h3 (by decide)

/-- C9 amended: the outgoing headers include the authentication header
derived from the credentials (`X-Auth-PSK` for a pre-shared key, the
`auth=` cookie for a token) whenever the caller supplies no extra header
of that name; but the caller-supplied extra headers are merged in LAST,
so an extra header with the same name replaces the authentication
header's value. -/
theorem c9_headers_amended (s t : String) (extra : List (String × J)) (v : J)
    (hs : s ≠ "") (ht : t ≠ "") :
    ("X-Auth-PSK" ∉ extra.map Prod.fst →
        lookupF (buildHeaders (J.obj [("psk", J.str s)]) extra) "X-Auth-PSK" = J.str s)
    ∧ ("Cookie" ∉ extra.map Prod.fst →
        lookupF (buildHeaders (J.obj [("pin", J.obj [("token", J.str t)])]) extra) "Cookie"
          = J.str ("auth=" ++ t))
    ∧ lookupF (buildHeaders (J.obj [("psk", J.str s)])
        (extra ++ [("X-Auth-PSK", v)])) "X-Auth-PSK" = v := by
  have hpsk : buildHeaders (J.obj [("psk", J.str s)]) extra
      = extra.foldl (fun acc kv => setF acc kv.1 kv.2)
          (setF baseHeaders "X-Auth-PSK" (J.str s)) := by
    unfold buildHeaders
    simp [jGet, lookupF, jTruthy, hs]
  refine ⟨?_, ?_, ?_⟩
  · intro hmem
    rw [hpsk, lookupF_foldl_setF _ _ _ hmem, lookupF_setF_same]
  · intro hmem
    have hpin : buildHeaders (J.obj [("pin", J.obj [("token", J.str t)])]) extra
        = extra.foldl (fun acc kv => setF acc kv.1 kv.2)
            (setF baseHeaders "Cookie" (J.str ("auth=" ++ t))) := by
      unfold buildHeaders
      simp [jGet, lookupF, jTruthy, jToStr, ht]
    rw [hpin, lookupF_foldl_setF _ _ _ hmem, lookupF_setF_same]
  · have hp2 : buildHeaders (J.obj [("psk", J.str s)]) (extra ++ [("X-Auth-PSK", v)])
        = setF (extra.foldl (fun acc kv => setF acc kv.1 kv.2)
            (setF baseHeaders "X-Auth-PSK" (J.str s))) "X-Auth-PSK" v := by
      unfold buildHeaders
      simp [jGet, lookupF, jTruthy, hs, List.foldl_append]
    rw [hp2, lookupF_setF_same]

/-- C9 witness: at concrete credentials and extra headers the amended
statement evaluates as proved. -/
theorem c9_witness :
    lookupF (buildHeaders (J.obj [("psk", J.str "secret")])
        [("Authorization", J.str "Basic x")]) "X-Auth-PSK" = J.str "secret"
    ∧ lookupF (buildHeaders (J.obj [("pin", J.obj [("token", J.str "tok")])])
        [("Authorization", J.str "Basic x")]) "Cookie" = J.str "auth=tok"
    ∧ lookupF (buildHeaders (J.obj [("psk", J.str "secret")])
        ([("Authorization", J.str "Basic x")] ++ [("X-Auth-PSK", J.str "evil")]))
        "X-Auth-PSK" = J.str "evil" := by
  have h := c9_headers_amended "secret" "tok" [("Authorization", J.str "Basic x")]
    (J.str "evil") (by decide) (by decide)
  exact ⟨h.1 (by decide), h.2.1 (by decide), h.2.2⟩

/-- C2 (code bug): on an instance whose catalog is already populated
(here with `getFoo` at version `1.0`), `invoke` with the unknown method
name `nope` does NOT produce the "Unknown Service Method" error the code
itself constructs for that case: the cached `describe` path returns the
bare methods array, `service.methods` is `undefined`, and reading
`.filter` on it raises a TypeError.  No network request is issued, for
any transport behaviour. -/
theorem c2_unknown_method_typeerror (ora : Nat → Except CErr J) :
    invokeRun "system" "http://tv/sony/system" [entry10] "nope" (J.str "1.0")
        (J.arr []) [] ora
      = { outcome := .typeErr, methods := [entry10], calls := [] } :=
  rfl

/-- C3 (code bug): on a fresh instance the first `describe()` performs the
one round of `getVersions`/`getMethodTypes` calls and returns
`{protocol, methods}`; the second `describe()` performs no network call
but returns the bare cached methods array — a structure different from
the first call's result, contradicting the claimed identical structure. -/
theorem c3_describe_cached_shape :
    (describeRun "system" [] J.undef oraPair).result
      = .ok (describeObj "system" [entry10, entry11])
    ∧ (describeRun "system" [] J.undef oraPair).calls
      = [gvData, mtData (J.str "1.0"), mtData (J.str "1.1")]
    ∧ (describeRun "system" (describeRun "system" [] J.undef oraPair).methods
        J.undef oraPair).calls = []
    ∧ (describeRun "system" (describeRun "system" [] J.undef oraPair).methods
        J.undef oraPair).result = .ok (J.arr [entry10, entry11])
    ∧ J.arr [entry10, entry11] ≠ describeObj "system" [entry10, entry11] := by
  refine ⟨rfl, rfl, rfl, rfl, ?_⟩
  intro h
  exact J.noConfusion h

/-- C1: when the discovery performed by the `invoke` call yields a catalog
in which the requested method's flat entries carry, in discovery order,
exactly the versions `1.0` then `1.1`, invoking with requested version
`2.0` does not fail: the effective version resolves to `1.1` (the
most-recently-discovered one) and the dispatched request envelope carries
that substituted version. -/
theorem c1_version_fallback (protocol url method : String) (data : J)
    (headers : List (String × J)) (ora : Nat → Except CErr J) (ms : List J)
    (hdesc : (describeRun protocol [] (J.str "2.0") ora).result
        = .ok (describeObj protocol ms))
    (hvers : (ms.filter (fun am => jsStrictEq (jGet am "method") (J.str method))).map
        (fun am => jGet am "version") = [J.str "1.0", J.str "1.1"]) :
    (invokeRun protocol url [] method (J.str "2.0") data headers ora).outcome
      = .dispatched { id := 1, method := method, version := J.str "1.1",
                      params := paramsList data } headers := by
  simp only [invokeRun, hdesc]
  have hm : jGet (describeObj protocol ms) "methods" = J.arr ms := by
    simp [describeObj, jGet, lookupF]
  unfold invokeAfter
  rw [hm]
  dsimp only
  set l := ms.filter (fun am => jsStrictEq (jGet am "method") (J.str method)) with hl
  have hlen : l.length = 2 := by
    have h2 := congrArg List.length hvers
    simpa using h2
  obtain ⟨x, y, hxy⟩ := List.length_eq_two.mp hlen
  rw [hxy] at hvers
  simp only [List.map_cons, List.map_nil, List.cons.injEq, and_true] at hvers
  obtain ⟨hx, hy⟩ := hvers
  rw [hxy]
  rw [if_neg (by simp : ¬([x, y].length = 0))]
  have px : jsStrictEq (jGet x "version") (J.str "2.0") = false := by
    rw [hx]
    rfl
  have py : jsStrictEq (jGet y "version") (J.str "2.0") = false := by
    rw [hy]
    rfl
  have hfind : List.find? (fun am => jsStrictEq (jGet am "version") (J.str "2.0")) [x, y]
      = none := by
    simp [List.find?, px, py]
  rw [hfind]
  rw [show ([x, y].getLastD J.undef) = y from rfl, hy]

/-- C1 witness: with a transport oracle reporting `getFoo` at `1.0` then
`1.1`, a fresh `invoke` of `getFoo` at requested version `2.0` dispatches
with version `1.1`. -/
theorem c1_witness :
    (invokeRun "system" "http://tv/sony/system" [] "getFoo" (J.str "2.0")
        (J.arr []) [] oraPair).outcome
      = .dispatched { id := 1, method := "getFoo", version := J.str "1.1",
                      params := [] } [] := by
  exact c1_version_fallback "system" "http://tv/sony/system" "getFoo" (J.arr []) []
    oraPair [entry10, entry11] rfl rfl

/-- C7 counterexample: when `getVersions` answers `["1.0"]` — a single
version group that contains the one version `"1.0"` — discovery issues
THREE `getMethodTypes` calls for that group, one per character (`"1"`,
`"."`, `"0"`), not exactly one per (sub)version: the guard
`version.length > 1` is true for the string and `for...of` iterates its
characters. -/
theorem c7_counterexample :
    (describeRun "system" [] J.undef oraChars).calls
      = [gvData, mtData (J.str "1"), mtData (J.str "."), mtData (J.str "0")]
    ∧ ((describeRun "system" [] J.undef oraChars).calls.filter
        (fun c => c.method == "getMethodTypes")).length = 3 :=
  ⟨rfl, rfl⟩

/-- C7 amended: under a discovery in which every `getMethodTypes` answer
carries a `results` array, the calls issued are `getVersions` followed by
one `getMethodTypes` call per (sub)version AS THE CODE CONSTRUES THEM —
the elements of a group of length > 1, the characters of a string group
of length > 1, and the group itself otherwise — and the recorded catalog
items are the `entryOf`-image of each answer's reported methods, flat for
groups of length > 1 and wrapped as a single nested array item otherwise;
each recorded entry takes its `method` from the reported method's first
field and its `version` from its last field. -/
theorem c7_discovery_amended (protocol : String) (ora : Nat → Except CErr J)
    (body : J) (gs : List J)
    (h0 : ora 0 = .ok body)
    (hgs : jElems (jGet body "result") = some gs)
    (hmt : ∀ n, 1 ≤ n → mtOk (ora n) = true) :
    describeRun protocol [] J.undef ora
      = { result := .ok (describeObj protocol (groupEntries ora 1 gs))
          methods := groupEntries ora 1 gs
          calls := gvData :: groupCalls gs }
    ∧ ∀ ms : List J, entryOf (J.arr ms)
        = J.obj [("method", ms.headD J.undef), ("version", ms.getLastD J.undef)] := by
  constructor
  · unfold describeRun
    rw [if_neg (by simp)]
    rw [h0]
    dsimp only
    rw [hgs]
    dsimp only
    rw [loopGroups_spec ora gs { acc := [], idx := 1, calls := [gvData] }
      (fun n hn => hmt n hn)]
    dsimp only
    simp
  · intro ms
    cases ms with
    | nil => rfl
    | cons a rest =>
        have hnneg : ¬(((a :: rest).length : Int) - 1 < 0) := by
          rw [List.length_cons]
          omega
        have ht : (((a :: rest).length : Int) - 1).toNat = (a :: rest).length - 1 := by
          rw [List.length_cons]
          omega
        have hver : jIdxJ (J.arr (a :: rest)) (jSub1 (jLength (J.arr (a :: rest))))
            = (a :: rest).getLastD J.undef := by
          show jIdxJ (J.arr (a :: rest)) (J.num (((a :: rest).length : Int) - 1)) = _
          unfold jIdxJ
          dsimp only
          rw [if_neg hnneg, ht]
          show (a :: rest).getD ((a :: rest).length - 1) J.undef = _
          exact getD_length_sub_one _ _
        unfold entryOf
        rw [hver]
        rfl

/-- C7 witness: the amended statement applied to the oracle of the
counterexample evaluates as proved, and `entryOf` on a concrete reported
method takes the first and last fields. -/
theorem c7_witness :
    describeRun "system" [] J.undef oraChars
      = { result := .ok (describeObj "system" (groupEntries oraChars 1 [J.str "1.0"]))
          methods := groupEntries oraChars 1 [J.str "1.0"]
          calls := gvData :: groupCalls [J.str "1.0"] }
    ∧ entryOf (J.arr [J.str "getFoo", J.arr [], J.arr [], J.str "1.2"])
      = J.obj [("method", J.str "getFoo"), ("version", J.str "1.2")] := by
  have h := c7_discovery_amended "system" oraChars
      (J.obj [("result", J.arr [J.str "1.0"])]) [J.str "1.0"] rfl rfl
      (fun n hn => by
        cases n with
        | zero => omega
        | succ m => rfl)
  exact ⟨h.1, h.2 [J.str "getFoo", J.arr [], J.arr [], J.str "1.2"]⟩

/-- C8 counterexample: discovery succeeds for `getVersions` and the first
`getMethodTypes` call (recording `getFoo` at `1.0`), then the second
`getMethodTypes` call fails with a classified 404.  The failure is
swallowed, but the catalog does NOT stay empty and `describe` returns a
NON-empty method list — falsifying the claim that a 404 discovery failure
leaves the catalog empty with an empty method list. -/
theorem c8_counterexample :
    (describeRun "avContent" [] J.undef ora404late).result
      = .ok (describeObj "avContent" [entry10])
    ∧ (describeRun "avContent" [] J.undef ora404late).methods = [entry10]
    ∧ ([entry10] : List J) ≠ [] := by
  refine ⟨rfl, rfl, ?_⟩
  intro h
  exact List.noConfusion h

/-- C8 amended: a classified discovery failure whose `code` is strictly
`404` is swallowed WHEREVER it occurs: `describe` returns normally, catalog
and method list holding exactly the entries recorded before the failing
call — empty when the initial `getVersions` call itself fails.  A
classified discovery failure with any other `code` propagates, wrapped in
a new error, wherever it occurs, the instance likewise retaining the
entries recorded before the failure.  The first conjunct covers a failure
of the initial call; the second covers a failure at the `j`-th
(sub)version call of an arbitrary group `g`, after arbitrary
fully-processed prefix groups `gpre`. -/
theorem c8_describe_404_amended (protocol : String) (e : CErr)
    (ora : Nat → Except CErr J) :
    (ora 0 = .error e →
      (jsStrictEq e.code (J.num 404) = true →
          describeRun protocol [] J.undef ora
            = { result := .ok (describeObj protocol []), methods := [], calls := [gvData] })
      ∧ (jsStrictEq e.code (J.num 404) = false →
          describeRun protocol [] J.undef ora
            = { result := .error (.wrapped (.cerr e)), methods := [],
                calls := [gvData] }))
    ∧ (∀ body gs gpre g grest j,
        ora 0 = .ok body →
        jElems (jGet body "result") = some gs →
        gs = gpre ++ g :: grest →
        j < (groupSubs g).length →
        (∀ n, 1 ≤ n → n < 1 + (gpre.flatMap groupSubs).length + j →
            mtOk (ora n) = true) →
        ora (1 + (gpre.flatMap groupSubs).length + j) = .error e →
        (jsStrictEq e.code (J.num 404) = true →
            describeRun protocol [] J.undef ora
              = { result := .ok (describeObj protocol (failEntries ora gpre g j))
                  methods := failEntries ora gpre g j
                  calls := failCalls gpre g j })
        ∧ (jsStrictEq e.code (J.num 404) = false →
            describeRun protocol [] J.undef ora
              = { result := .error (.wrapped (.cerr e))
                  methods := failEntries ora gpre g j
                  calls := failCalls gpre g j })) := by
  constructor
  · intro h0
    constructor
    · intro hc
      unfold describeRun
      rw [if_neg (by simp)]
      rw [h0]
      dsimp only
      rw [hc]
      rfl
    · intro hc
      unfold describeRun
      rw [if_neg (by simp)]
      rw [h0]
      dsimp only
      rw [hc]
      rfl
  · intro body gs gpre g grest j h0 hgs hsplit hj hgood hfail
    subst hsplit
    have hloop := loopGroups_fail ora gpre g grest
      { acc := [], idx := 1, calls := [gvData] } j e hj hgood hfail
    constructor
    · intro hc
      unfold describeRun
      rw [if_neg (by simp)]
      rw [h0]
      dsimp only
      rw [hgs]
      dsimp only
      rw [hloop]
      dsimp only
      rw [if_pos hc]
      simp [failEntries, failCalls]
    · intro hc
      unfold describeRun
      rw [if_neg (by simp)]
      rw [h0]
      dsimp only
      rw [hgs]
      dsimp only
      rw [hloop]
      dsimp only
      rw [if_neg (by simp [hc])]
      simp [failEntries, failCalls]

/-- C8 witness: the amended statement evaluated at concrete inputs — a
404 and a 401 failing the initial call, and a 404 and a 401 failing the
second `getMethodTypes` call of the group `["1.0", "1.1"]` after one
entry was recorded. -/
theorem c8_witness :
    describeRun "system" [] J.undef oraFail404
      = { result := .ok (describeObj "system" []), methods := [], calls := [gvData] }
    ∧ describeRun "system" [] J.undef oraFail401
      = { result := .error (.wrapped (.cerr err401)), methods := [], calls := [gvData] }
    ∧ describeRun "avContent" [] J.undef ora404late
      = { result := .ok (describeObj "avContent"
            (failEntries ora404late [] (J.arr [J.str "1.0", J.str "1.1"]) 1))
          methods := failEntries ora404late [] (J.arr [J.str "1.0", J.str "1.1"]) 1
          calls := failCalls [] (J.arr [J.str "1.0", J.str "1.1"]) 1 }
    ∧ failEntries ora404late [] (J.arr [J.str "1.0", J.str "1.1"]) 1 = [entry10]
    ∧ describeRun "avContent" [] J.undef ora401late
      = { result := .error (.wrapped (.cerr err401))
          methods := failEntries ora401late [] (J.arr [J.str "1.0", J.str "1.1"]) 1
          calls := failCalls [] (J.arr [J.str "1.0", J.str "1.1"]) 1 } := by
  have h404first := (c8_describe_404_amended "system" err404 oraFail404).1 rfl
  have h401first := (c8_describe_404_amended "system" err401 oraFail401).1 rfl
  have h404late := (c8_describe_404_amended "avContent" err404 ora404late).2
    (J.obj [("result", J.arr [J.arr [J.str "1.0", J.str "1.1"]])])
    [J.arr [J.str "1.0", J.str "1.1"]] [] (J.arr [J.str "1.0", J.str "1.1"]) [] 1
    rfl rfl rfl (by decide)
    (fun n h1 h2 => by
      have hn : n = 1 := by
        simp at h2
        omega
      subst hn
      rfl)
    rfl
  have h401late := (c8_describe_404_amended "avContent" err401 ora401late).2
    (J.obj [("result", J.arr [J.arr [J.str "1.0", J.str "1.1"]])])
    [J.arr [J.str "1.0", J.str "1.1"]] [] (J.arr [J.str "1.0", J.str "1.1"]) [] 1
    rfl rfl rfl (by decide)
    (fun n h1 h2 => by
      have hn : n = 1 := by
        simp at h2
        omega
      subst hn
      rfl)
    rfl
  exact ⟨h404first.1 rfl, h401first.2 rfl, h404late.1 rfl, rfl, h401late.2 rfl⟩
